import Mathlib

/-!
# Verification of the ai-proxy credential pool, retry transport and body rewriter

A shallow embedding of the Go source of the `ai-proxy` reverse proxy
(scoped key manager, retry transport, response post-processor, body
rewriter), together with theorems settling the specification claims.

Go maps are embedded as association lists (`lookupKV` / `insertKV` /
`eraseKV`); `time.Time` and `time.Duration` are embedded as `Nat`
(`now.After(t)` becomes `now > t`); `rand.IntN` results are threaded as
explicit parameters; logging and body I/O are dropped.
-/

namespace AiProxy

/-! ## Association-list maps (embedding of Go maps) -/

/-- Lookup in an association list: the first binding of the key, if any.
Embeds Go `m[k]` (the `(value, ok)` form). -/
def lookupKV {κ α : Type} [DecidableEq κ] : List (κ × α) → κ → Option α
  | [], _ => none
  | p :: rest, k => if p.1 = k then some p.2 else lookupKV rest k

/-- Remove every binding of a key.  Embeds Go `delete(m, k)`. -/
def eraseKV {κ α : Type} [DecidableEq κ] : List (κ × α) → κ → List (κ × α)
  | [], _ => []
  | p :: rest, k => if p.1 = k then eraseKV rest k else p :: eraseKV rest k

/-- Insert or replace the binding of a key.  Embeds Go `m[k] = v`. -/
def insertKV {κ α : Type} [DecidableEq κ] (m : List (κ × α)) (k : κ) (v : α) :
    List (κ × α) :=
  (k, v) :: eraseKV m k

theorem lookupKV_eraseKV_self {κ α : Type} [DecidableEq κ]
    (m : List (κ × α)) (k : κ) : lookupKV (eraseKV m k) k = none := by
  induction m with
  | nil => rfl
  | cons p rest ih =>
    by_cases h : p.1 = k <;> simp [eraseKV, lookupKV, h, ih]

theorem lookupKV_eraseKV_ne {κ α : Type} [DecidableEq κ]
    (m : List (κ × α)) (k k' : κ) (h : k' ≠ k) :
    lookupKV (eraseKV m k) k' = lookupKV m k' := by
  induction m with
  | nil => rfl
  | cons p rest ih =>
    have hkk' : k ≠ k' := fun hc => h hc.symm
    by_cases hp : p.1 = k
    · simp only [eraseKV, if_pos hp, lookupKV, hp, if_neg hkk']
      exact ih
    · by_cases hp' : p.1 = k' <;> simp [eraseKV, lookupKV, hp, hp', h, ih]

theorem lookupKV_insertKV_self {κ α : Type} [DecidableEq κ]
    (m : List (κ × α)) (k : κ) (v : α) : lookupKV (insertKV m k v) k = some v := by
  simp [insertKV, lookupKV]

theorem lookupKV_insertKV_ne {κ α : Type} [DecidableEq κ]
    (m : List (κ × α)) (k k' : κ) (v : α) (h : k' ≠ k) :
    lookupKV (insertKV m k v) k' = lookupKV m k' := by
  have : k ≠ k' := fun hc => h hc.symm
  simp [insertKV, lookupKV, this, lookupKV_eraseKV_ne m k k' h]

theorem lookupKV_isSome_of_mem {κ α : Type} [DecidableEq κ]
    {m : List (κ × α)} {p : κ × α} (h : p ∈ m) : (lookupKV m p.1).isSome := by
  induction m with
  | nil => cases h
  | cons q rest ih =>
    rcases List.mem_cons.mp h with h | h
    · subst h; simp [lookupKV]
    · by_cases hq : q.1 = p.1 <;> simp [lookupKV, hq, ih h]

theorem eraseKV_keys_ne {κ α : Type} [DecidableEq κ]
    (m : List (κ × α)) (k : κ) : ∀ p ∈ eraseKV m k, p.1 ≠ k := by
  induction m with
  | nil => intro p hp; cases hp
  | cons q rest ih =>
    intro p hp
    by_cases hq : q.1 = k
    · simp only [eraseKV, if_pos hq] at hp; exact ih p hp
    · simp only [eraseKV, if_neg hq] at hp
      rcases List.mem_cons.mp hp with h | h
      · subst h; exact hq
      · exact ih p h

theorem mem_of_eraseKV {κ α : Type} [DecidableEq κ]
    {m : List (κ × α)} {k : κ} {p : κ × α} (h : p ∈ eraseKV m k) : p ∈ m := by
  induction m with
  | nil => cases h
  | cons q rest ih =>
    by_cases hq : q.1 = k
    · simp only [eraseKV, if_pos hq] at h
      exact List.mem_cons_of_mem _ (ih h)
    · simp only [eraseKV, if_neg hq] at h
      rcases List.mem_cons.mp h with rfl | h
      · exact List.mem_cons_self _ _
      · exact List.mem_cons_of_mem _ (ih h)

/-! ## Scoped credential pool (key_manager, scoped generation)

Embedding of the scoped `keyManager`: `scopeState`, `newKeyManager`,
`getOrCreateScopeState`, `buildScopeKey`, `getNextKey`, `markKeyFailed`,
`reactivateScopeKeys` and the periodic `reactivateKeys` sweep. -/

/-- Per-scope availability state.  `availableKeys` maps an original key
index to the key string; `failingKeys` maps an index to its reactivation
time.  `currentIndex` is retained from the source but unused (the source
selects by random start). -/
structure scopeState where
  availableKeys : List (Nat × String)
  failingKeys : List (Nat × Nat)
  currentIndex : Nat
deriving Repr, DecidableEq

/-- The scoped key manager: the immutable original key list, the
on-demand scope map and the sideline duration. -/
structure keyManager where
  originalKeys : List String
  scopes : List (String × scopeState)
  removalDuration : Nat
deriving Repr, DecidableEq

/-- Construction failures of `newKeyManager`. -/
inductive NewKMError where
  | noKeys            -- "at least one API key must be provided"
  | nonPositiveDuration  -- "key removal duration must be positive"
  | noValidKeys       -- "no valid (non-empty) API keys found"
deriving Repr, DecidableEq

/-- `newKeyManager`: validates the key list and duration and returns a
manager with an empty scope map. -/
def newKeyManager (keys : List String) (removalDuration : Nat) :
    Except NewKMError keyManager :=
  if keys.length = 0 then .error .noKeys
  else if removalDuration = 0 then .error .nonPositiveDuration
  else if keys.countP (fun k => decide (k ≠ "")) = 0 then .error .noValidKeys
  else .ok { originalKeys := keys, scopes := [], removalDuration := removalDuration }

/-- The initial `availableKeys` of a fresh scope: every non-empty
original key at its index, built by the indexed range loop of
`getOrCreateScopeState` (`i0` is the index of the first element of
`keys` in the original list). -/
def initAvailFrom : List String → Nat → List (Nat × String)
  | [], _ => []
  | k :: rest, i0 =>
    if k ≠ "" then (i0, k) :: initAvailFrom rest (i0 + 1)
    else initAvailFrom rest (i0 + 1)

/-- `getOrCreateScopeState`: resolve the scope's state, creating it with
all non-empty keys available when absent.  Returns the state together
with the (possibly extended) manager. -/
def getOrCreateScopeState (km : keyManager) (scope : String) :
    scopeState × keyManager :=
  match lookupKV km.scopes scope with
  | some st => (st, km)
  | none =>
    let newState : scopeState :=
      { availableKeys := initAvailFrom km.originalKeys 0
        failingKeys := []
        currentIndex := 0 }
    (newState, { km with scopes := insertKV km.scopes scope newState })

/-- `buildScopeKey`: `host|path`. -/
def buildScopeKey (host path : String) : String :=
  host ++ "|" ++ path

/-- `reactivateScopeKeys`'s range loop over the failing entries of one
scope: an expired entry at a valid non-empty index moves back to
`availableKeys`; an expired entry at an invalid or empty index is
dropped from `failingKeys`. -/
def reactivateEntries (keys : List String) :
    List (Nat × Nat) → scopeState → Nat → scopeState
  | [], st, _ => st
  | (index, reactivateTime) :: rest, st, now =>
    if now > reactivateTime then
      if index < keys.length ∧ keys.getD index "" ≠ "" then
        reactivateEntries keys rest
          { st with
            availableKeys := insertKV st.availableKeys index (keys.getD index "")
            failingKeys := eraseKV st.failingKeys index } now
      else
        reactivateEntries keys rest
          { st with failingKeys := eraseKV st.failingKeys index } now
    else reactivateEntries keys rest st now

/-- `reactivateScopeKeys`: the just-in-time sweep of a single scope. -/
def reactivateScopeKeys (keys : List String) (st : scopeState) (now : Nat) :
    scopeState :=
  reactivateEntries keys st.failingKeys st now

/-- The periodic `reactivateKeys` sweep: every scope's failing entries
are processed with the same per-entry logic as `reactivateScopeKeys`. -/
def reactivateKeys (km : keyManager) (now : Nat) : keyManager :=
  { km with
    scopes := km.scopes.map
      (fun p => (p.1, reactivateEntries km.originalKeys p.2.failingKeys p.2 now)) }

/-- Failures of `getNextKey`. -/
inductive GetKeyError where
  | emptyKeyList      -- "internal error: key list is empty"
  | allFailing        -- "all keys are temporarily rate limited or failing"
  | noneConfigured    -- "no keys configured or available"
  | probeExhausted    -- "no available key found after checking all indices"
deriving Repr, DecidableEq

/-- The random-start linear probe of `getNextKey`: indices
`(startIndex + i) % numKeys` for `i ∈ [0, numKeys)`, returning the first
one present in `availableKeys`. -/
def probeAvailable (available : List (Nat × String)) (numKeys startIndex : Nat) :
    Option (String × Nat) :=
  (List.range numKeys).findSome? (fun i =>
    let keyIndex := (startIndex + i) % numKeys
    (lookupKV available keyIndex).map (fun key => (key, keyIndex)))

/-- `getNextKey`: resolve the scope, run the just-in-time reactivation
when every valid key is failing in this scope, and probe from the random
start index (`randStart` embeds the `rand.IntN(numOriginalKeys)` draw;
`now` embeds `time.Now()`).  Returns the result together with the
updated manager. -/
def getNextKey (km : keyManager) (scope : String) (now randStart : Nat) :
    Except GetKeyError (String × Nat) × keyManager :=
  let numOriginalKeys := km.originalKeys.length
  if numOriginalKeys = 0 then (.error .emptyKeyList, km)
  else
    let skm := getOrCreateScopeState km scope
    let state := skm.1
    let km1 := skm.2
    if state.availableKeys.length = 0 then
      let validOriginalKeyCount := km.originalKeys.countP (fun k => decide (k ≠ ""))
      if state.failingKeys.length > 0 ∧
          state.failingKeys.length = validOriginalKeyCount then
        let state2 := reactivateScopeKeys km.originalKeys state now
        let km2 := { km1 with scopes := insertKV km1.scopes scope state2 }
        if state2.availableKeys.length = 0 then (.error .allFailing, km2)
        else
          match probeAvailable state2.availableKeys numOriginalKeys randStart with
          | some (key, keyIndex) => (.ok (key, keyIndex), km2)
          | none => (.error .probeExhausted, km2)
      else (.error .noneConfigured, km1)
    else
      match probeAvailable state.availableKeys numOriginalKeys randStart with
      | some (key, keyIndex) => (.ok (key, keyIndex), km1)
      | none => (.error .probeExhausted, km1)

/-- `markKeyFailed`: under the lock, move the index from this scope's
`availableKeys` to `failingKeys` with reactivation time
`now + removalDuration`; a no-op when the index is not available. -/
def markKeyFailed (km : keyManager) (scope : String) (keyIndex : Nat) (now : Nat) :
    keyManager :=
  let skm := getOrCreateScopeState km scope
  let state := skm.1
  let km1 := skm.2
  match lookupKV state.availableKeys keyIndex with
  | some _ =>
    let state' : scopeState :=
      { state with
        failingKeys := insertKV state.failingKeys keyIndex (now + km.removalDuration)
        availableKeys := eraseKV state.availableKeys keyIndex }
    { km1 with scopes := insertKV km1.scopes scope state' }
  | none => km1

/-! ## Retry transport (retry_transport, scoped generation)

Embedding of `retryTransport.RoundTrip`: per-attempt credential
acquisition, outcome classification and the terminal result.  The
underlying round-tripper is an oracle `Nat → AttemptOutcome` giving each
attempt's outcome; the per-attempt random draw and clock are the oracles
`rand` and `timeAt`.  Body buffering and header mutation are modelled
separately (`applyAuth`); draining/closing bodies is I/O and is not
modelled. -/

def maxRetries : Nat := 3

/-- Shape of a Go transport error, as far as `RoundTrip` inspects it:
whether it is a `net.Error`, its `Timeout()` and (deprecated)
`Temporary()` results, and whether `errors.Is` matches `io.EOF` or
`io.ErrUnexpectedEOF`. -/
structure TransportError where
  isNetError : Bool
  timeout : Bool
  temporary : Bool
  isEOF : Bool
deriving Repr, DecidableEq

/-- Outcome of one call of the underlying round-tripper. -/
inductive AttemptOutcome where
  | transportError (e : TransportError)
  | response (status : Nat)
deriving Repr, DecidableEq

/-- The retry decision of the scoped `RoundTrip` for a transport error:
`netErr.Timeout()`, or `errors.Is(lastErr, io.ErrUnexpectedEOF) ||
errors.Is(lastErr, io.EOF)`. -/
def isRetryableTransportError (e : TransportError) : Bool :=
  (e.isNetError && e.timeout) || e.isEOF

/-- Action taken for one attempt's outcome (lines 149-183 of the scoped
`RoundTrip`). -/
inductive AttemptAction where
  | retryNoMark     -- retryable transport error: retry, no sidelining
  | returnError     -- other transport error: returned immediately
  | retryMark       -- 429: sideline credential, drain body, retry
  | retryServerError  -- 5xx except 501/505: drain body, retry, no sidelining
  | returnResponse  -- any other status: response returned to the caller
deriving Repr, DecidableEq

/-- The per-attempt outcome classification of the scoped `RoundTrip`. -/
def classifyAttempt : AttemptOutcome → AttemptAction
  | .transportError e =>
    if isRetryableTransportError e then .retryNoMark else .returnError
  | .response status =>
    if status = 429 then .retryMark
    else if 500 ≤ status ∧ status ≠ 501 ∧ status ≠ 505 then .retryServerError
    else .returnResponse

/-- Terminal result of `RoundTrip` towards the proxy engine. -/
inductive RTOutcome where
  | response (status : Nat)
      -- a response handed to the caller (`return resp, lastErr` with nil error)
  | transportFailure (e : TransportError)
      -- a transport error returned (immediately, or as the last error)
  | credentialUnavailable (status : Nat)
      -- `proxyErrorWithStatus` built when `getNextKey` fails (status 503)
  | upstreamExhausted (status : Nat)
      -- `proxyErrorWithStatus` built after retries exhausted with a response
  | internalLoopExit
      -- the source's "internal error: retry loop exited ..." safeguard
deriving Repr, DecidableEq

/-- The retry loop of the scoped `RoundTrip`.  `attempt` is the current
attempt number, `remaining` the attempts left (the loop is entered with
`remaining = maxRetries`); `remaining = 1` is the last attempt
(`attempt == maxRetries-1`), after which a retryable outcome produces
the post-loop terminal error. -/
def roundTripLoop (km : keyManager) (scope : String)
    (oracle : Nat → AttemptOutcome) (rand timeAt : Nat → Nat) :
    Nat → Nat → RTOutcome × keyManager
  | _, 0 => (.internalLoopExit, km)
  | attempt, remaining + 1 =>
    match getNextKey km scope (timeAt attempt) (rand attempt) with
    | (.error _, km1) => (.credentialUnavailable 503, km1)
    | (.ok (_, keyIndex), km1) =>
      match oracle attempt with
      | .transportError e =>
        if isRetryableTransportError e then
          if remaining = 0 then (.transportFailure e, km1)
          else roundTripLoop km1 scope oracle rand timeAt (attempt + 1) remaining
        else (.transportFailure e, km1)
      | .response status =>
        if status = 429 then
          let km2 := markKeyFailed km1 scope keyIndex (timeAt attempt)
          if remaining = 0 then (.upstreamExhausted status, km2)
          else roundTripLoop km2 scope oracle rand timeAt (attempt + 1) remaining
        else if 500 ≤ status ∧ status ≠ 501 ∧ status ≠ 505 then
          if remaining = 0 then (.upstreamExhausted status, km1)
          else roundTripLoop km1 scope oracle rand timeAt (attempt + 1) remaining
        else (.response status, km1)

/-- `RoundTrip` on a request with the given original URL host and path:
the scope is computed once from the original request and the loop is
entered with `maxRetries` attempts. -/
def roundTrip (km : keyManager) (host path : String)
    (oracle : Nat → AttemptOutcome) (rand timeAt : Nat → Nat) :
    RTOutcome × keyManager :=
  roundTripLoop km (buildScopeKey host path) oracle rand timeAt 0 maxRetries

/-! ## Per-attempt authentication injection (RoundTrip lines 121-140) -/

/-- Go `strings.Contains(s, substr)`. -/
def containsSubstr (s substr : String) : Bool :=
  decide (substr.data <:+: s.data)

/-- The authentication-relevant view of one attempt's cloned request:
its URL path, the `Authorization` header (if set) and the query
parameters. -/
structure RequestAuth where
  path : String
  authHeader : Option String
  query : List (String × String)
deriving Repr, DecidableEq

/-- The auth-channel choice of `RoundTrip`: when the path contains any
configured header-auth substring set `Authorization: Bearer <key>` and
delete the key query parameter, otherwise delete `Authorization` and
set the key query parameter. -/
def applyAuth (headerAuthPaths : List String) (keyParam apiKey : String)
    (req : RequestAuth) : RequestAuth :=
  let useHeaderAuth := headerAuthPaths.any (fun p => containsSubstr req.path p)
  if useHeaderAuth then
    { req with
      authHeader := some ("Bearer " ++ apiKey)
      query := eraseKV req.query keyParam }
  else
    { req with
      authHeader := none
      query := insertKV req.query keyParam apiKey }

/-! ## Response post-processor

Modelled from the spec: the scoped `createProxyModifyResponse` (spec
§4.3) is not among the provided sources — `part_002` holds the
pre-scoping version (whose `markKeyFailed` takes no scope) and
`part_001` holds the scoped version's tests.  Faithful to the spec's
words: read the credential index from the request context; when the
final status is ≥ 400, < 500 and ≠ 429, `markFailed(scope, index)`;
2xx/3xx statuses do nothing; when no index is present, nothing is
marked.  The ≥400/<500/≠429 condition is nested inside the non-2xx
logging branch exactly as in `part_002`. -/

/-- Modelled from the spec: the scoped response post-processor
(`createProxyModifyResponse`).  `ctxKeyIndex` is the credential index
carried by the request context (none when the transport failed before
acquiring a credential); `scope` is built from the response's request
URL; only the key-manager effect is modelled (logging and body
restoration are I/O). -/
def modifyResponse (km : keyManager) (scope : String) (ctxKeyIndex : Option Nat)
    (status : Nat) (now : Nat) : keyManager :=
  match ctxKeyIndex with
  | none => km
  | some keyIndex =>
    if status < 200 ∨ 300 ≤ status then
      if 400 ≤ status ∧ status < 500 ∧ status ≠ 429 then
        markKeyFailed km scope keyIndex now
      else km
    else km

/-! ## Body rewriter (body_modifier.go)

Embedding of `handlePostBody` and `modifyBodyWithGoogleSearch`.  JSON is
embedded as `JValue`; a top-level Go `map[string]any` becomes a list of
string-keyed fields.  `json.Unmarshal` is represented by passing the
parse result (`none` on a parse error).  The rewriter's result is
either "original bytes returned unchanged" (the `modified` flag stayed
false, or parsing failed) or "marshal of this object". -/

/-- JSON values. -/
inductive JValue where
  | null
  | bool (b : Bool)
  | num (n : Int)
  | str (s : String)
  | arr (elems : List JValue)
  | obj (fields : List (String × JValue))
deriving Repr

/-- A word character for the `\b` boundaries of the trigger regex
`(?i)\b<trigger>\b`. -/
def isWordChar (c : Char) : Bool :=
  ('a' ≤ c && c ≤ 'z') || ('A' ≤ c && c ≤ 'Z') || ('0' ≤ c && c ≤ '9') || c = '_'

/-- One candidate position of the trigger regex: the trigger matches
`text` at position `i` when the characters agree case-insensitively and
a `\b` word boundary holds on both sides. -/
def matchTriggerAt (text trig : List Char) (i : Nat) : Bool :=
  let m := trig.length
  decide (0 < m) && decide (i + m ≤ text.length) &&
  (List.range m).all
    (fun j => (text.getD (i + j) ' ').toLower = (trig.getD j ' ').toLower) &&
  ((if i = 0 then false else isWordChar (text.getD (i - 1) ' '))
      ≠ isWordChar (trig.getD 0 ' ') : Bool) &&
  (isWordChar (trig.getD (m - 1) ' ')
      ≠ (if i + m = text.length then false else isWordChar (text.getD (i + m) ' ')) : Bool)

/-- Whether the regex `(?i)\b<trigger>\b` matches anywhere in `text`
(case folding modelled by `Char.toLower`). -/
def matchesWholeWord (trigger text : String) : Bool :=
  (List.range (text.data.length + 1)).any (fun i => matchTriggerAt text.data trigger.data i)

/-- Trigger search inside one element of a `parts` array: a map with a
string `text` member is tested against the trigger regex. -/
def partHasTrigger (trigger : String) : JValue → Bool
  | .obj fields =>
    match lookupKV fields "text" with
    | some (.str t) => matchesWholeWord trigger t
    | _ => false
  | _ => false

/-- Trigger search inside one element of the `contents` array: a map
whose `parts` member is an array is scanned part by part. -/
def contentHasTrigger (trigger : String) : JValue → Bool
  | .obj fields =>
    match lookupKV fields "parts" with
    | some (.arr parts) => parts.any (partHasTrigger trigger)
    | _ => false
  | _ => false

/-- The `triggerFound` scan of `modifyBodyWithGoogleSearch` over
`contents[*].parts[*].text`. -/
def triggerFound (requestData : List (String × JValue)) (trigger : String) : Bool :=
  match lookupKV requestData "contents" with
  | some (.arr contents) => contents.any (contentHasTrigger trigger)
  | _ => false

/-- The `hasFunctionDeclarations` scan: a `functionDeclarations` member
inside any element of a `tools` array, or directly inside a `tools`
map. -/
def hasFunctionDecls (requestData : List (String × JValue)) : Bool :=
  match lookupKV requestData "tools" with
  | some (.arr tools) =>
    tools.any (fun t =>
      match t with
      | .obj m => (lookupKV m "functionDeclarations").isSome
      | _ => false)
  | some (.obj m) => (lookupKV m "functionDeclarations").isSome
  | _ => false

/-- `googleSearchTool`: the `{google_search: {}}` tool entry. -/
def googleSearchTool : JValue :=
  .obj [("google_search", .obj [])]

/-- Whether a `tools` array already holds a `google_search` entry. -/
def gsPresentInArr (tools : List JValue) : Bool :=
  tools.any (fun t =>
    match t with
    | .obj m => (lookupKV m "google_search").isSome
    | _ => false)

/-- Result of the rewriter: the original bytes unchanged (the source's
`modified` flag stayed false or parsing failed), or the marshalling of
the rewritten object. -/
inductive RewriteResult where
  | original
  | rewritten (body : List (String × JValue))
deriving Repr

/-- The modification logic of `modifyBodyWithGoogleSearch` on a parsed
top-level object. -/
def modifyParsedBody (requestData : List (String × JValue)) (searchTrigger : String) :
    RewriteResult :=
  let trigFound := triggerFound requestData searchTrigger
  let hasFD := hasFunctionDecls requestData
  if trigFound then
    match lookupKV requestData "tools" with
    | some (.obj toolsMap) =>
      -- remove functionDeclarations if present, then ensure google_search
      let m1 := if hasFD then eraseKV toolsMap "functionDeclarations" else toolsMap
      if (lookupKV m1 "google_search").isSome then
        -- modified only when functionDeclarations was deleted
        if hasFD then .rewritten (insertKV requestData "tools" (.obj m1))
        else .original
      else
        .rewritten (insertKV requestData "tools"
          (.obj (insertKV m1 "google_search" (.obj []))))
    | some (.arr _) =>
      .rewritten (insertKV requestData "tools" (.arr [googleSearchTool]))
    | some _ =>
      .rewritten (insertKV requestData "tools" (.arr [googleSearchTool]))
    | none =>
      .rewritten (insertKV requestData "tools" (.arr [googleSearchTool]))
  else
    if hasFD then .original
    else
      match lookupKV requestData "tools" with
      | some (.arr toolsSlice) =>
        if gsPresentInArr toolsSlice then .original
        else .rewritten (insertKV requestData "tools"
          (.arr (toolsSlice ++ [googleSearchTool])))
      | some (.obj toolsMap) =>
        if (lookupKV toolsMap "google_search").isSome then .original
        else .rewritten (insertKV requestData "tools"
          (.obj (insertKV toolsMap "google_search" (.obj []))))
      | some _ =>
        .rewritten (insertKV requestData "tools" (.arr [googleSearchTool]))
      | none =>
        .rewritten (insertKV requestData "tools" (.arr [googleSearchTool]))

/-- `modifyBodyWithGoogleSearch`: on a parse error (`none`) the original
bytes come back unchanged, otherwise the parsed object is rewritten. -/
def modifyBodyWithGoogleSearch (parsed : Option (List (String × JValue)))
    (searchTrigger : String) : RewriteResult :=
  match parsed with
  | none => .original
  | some requestData => modifyParsedBody requestData searchTrigger

/-- `handlePostBody`: when `addGoogleSearch` is false the body bytes are
returned as read; otherwise `modifyBodyWithGoogleSearch` runs. -/
def handlePostBody (parsed : Option (List (String × JValue)))
    (addGoogleSearch : Bool) (searchTrigger : String) : RewriteResult :=
  if !addGoogleSearch then .original
  else modifyBodyWithGoogleSearch parsed searchTrigger

/-- The bytes `handlePostBody` hands back for a body whose raw bytes are
`raw` and whose parse result is `parsed`: the input bytes when nothing
was modified, a marshalling of the rewritten object otherwise
(`marshal` abstracts `json.Marshal`). -/
def handlePostBodyBytes (marshal : List (String × JValue) → String)
    (raw : String) (parsed : Option (List (String × JValue)))
    (addGoogleSearch : Bool) (searchTrigger : String) : String :=
  match handlePostBody parsed addGoogleSearch searchTrigger with
  | .original => raw
  | .rewritten o => marshal o

/-! ## Lemmas about the linear probe -/

theorem exists_of_findSome?_some {α β : Type} {f : α → Option β} :
    ∀ {l : List α} {b : β}, l.findSome? f = some b → ∃ a ∈ l, f a = some b := by
  intro l
  induction l with
  | nil => intro b h; simp [List.findSome?] at h
  | cons a rest ih =>
    intro b h
    rw [List.findSome?] at h
    cases hfa : f a with
    | some b' =>
      refine ⟨a, List.mem_cons_self a rest, ?_⟩
      rw [hfa] at h ⊢
      exact h
    | none =>
      rw [hfa] at h
      obtain ⟨a', ha', hfa'⟩ := ih h
      exact ⟨a', List.mem_cons_of_mem a ha', hfa'⟩

theorem forall_none_of_findSome?_none {α β : Type} {f : α → Option β} :
    ∀ {l : List α}, l.findSome? f = none → ∀ a ∈ l, f a = none := by
  intro l
  induction l with
  | nil => intro _ a ha; cases ha
  | cons a rest ih =>
    intro h a' ha'
    rw [List.findSome?] at h
    cases hfa : f a with
    | some b' => rw [hfa] at h; cases h
    | none =>
      rw [hfa] at h
      rcases List.mem_cons.mp ha' with rfl | hmem
      · exact hfa
      · exact ih h a' hmem

/-- Every residue below `N` is hit by the probe's index sequence. -/
theorem probe_cover (N start j : Nat) (hN : 0 < N) (hj : j < N) :
    ∃ i, i < N ∧ (start + i) % N = j := by
  refine ⟨(j + (N - start % N)) % N, Nat.mod_lt _ hN, ?_⟩
  have hs : start % N < N := Nat.mod_lt _ hN
  have e1 : (start + (j + (N - start % N)) % N) % N
      = (start + (j + (N - start % N))) % N := by
    conv_lhs => rw [Nat.add_mod]
    conv_rhs => rw [Nat.add_mod]
    simp
  have e2 : (start + (j + (N - start % N))) % N
      = (start % N + (j + (N - start % N))) % N := by
    conv_lhs => rw [Nat.add_mod]
    conv_rhs => rw [Nat.add_mod]
    simp
  have e3 : start % N + (j + (N - start % N)) = j + N := by omega
  rw [e1, e2, e3, Nat.add_mod_right, Nat.mod_eq_of_lt hj]

/-- A successful probe returns a binding of `availableKeys`. -/
theorem probeAvailable_mem {available : List (Nat × String)} {N start : Nat}
    {key : String} {idx : Nat}
    (h : probeAvailable available N start = some (key, idx)) :
    lookupKV available idx = some key := by
  obtain ⟨i, _, hfi⟩ := exists_of_findSome?_some h
  simp only [Option.map_eq_some'] at hfi
  obtain ⟨k, hk, hpair⟩ := hfi
  obtain ⟨rfl, rfl⟩ : k = key ∧ (start + i) % N = idx := by
    constructor <;> [exact congrArg Prod.fst hpair; exact congrArg Prod.snd hpair]
  exact hk

/-- When `availableKeys` is non-empty and all its indices are below the
original key count, the probe always succeeds. -/
theorem probeAvailable_isSome {available : List (Nat × String)} {N start : Nat}
    (hN : 0 < N) (hb : ∀ p ∈ available, p.1 < N) (hne : available ≠ []) :
    (probeAvailable available N start).isSome := by
  cases hp : probeAvailable available N start with
  | some v => rfl
  | none =>
    exfalso
    obtain ⟨p, hmem⟩ : ∃ p, p ∈ available := by
      cases available with
      | nil => exact absurd rfl hne
      | cons q rest => exact ⟨q, List.mem_cons_self q rest⟩
    obtain ⟨i, hi, hcov⟩ := probe_cover N start p.1 hN (hb p hmem)
    have hnone := forall_none_of_findSome?_none hp i (List.mem_range.mpr hi)
    simp only [Option.map_eq_none', hcov] at hnone
    have hsome := lookupKV_isSome_of_mem hmem
    rw [hnone] at hsome
    cases hsome

/-! ## The per-scope availability invariant -/

/-- Invariant of one scope's state with respect to the original key
list: every index with a non-empty configured credential is in exactly
one of `availableKeys` and `failingKeys`, and an index whose configured
credential is empty (or out of range) is never in `availableKeys`.
(`keys.getD i "" ≠ ""` already forces `i < keys.length`.) -/
def scopeInv (keys : List String) (st : scopeState) : Prop :=
  (∀ i, keys.getD i "" ≠ "" →
      ((lookupKV st.availableKeys i).isSome ∧ lookupKV st.failingKeys i = none) ∨
      ((lookupKV st.failingKeys i).isSome ∧ lookupKV st.availableKeys i = none)) ∧
  (∀ i, keys.getD i "" = "" → lookupKV st.availableKeys i = none)

/-- Manager-wide invariant: every materialised scope satisfies
`scopeInv`. -/
def kmInvariant (km : keyManager) : Prop :=
  ∀ s st, lookupKV km.scopes s = some st → scopeInv km.originalKeys st

theorem getD_ne_empty_lt {keys : List String} {i : Nat}
    (h : keys.getD i "" ≠ "") : i < keys.length := by
  by_contra hlt
  exact h (List.getD_eq_default _ _ (le_of_not_lt hlt))

theorem lookup_initAvailFrom_lt (keys : List String) :
    ∀ i0 j, j < i0 → lookupKV (initAvailFrom keys i0) j = none := by
  induction keys with
  | nil => intro i0 j _; rfl
  | cons k rest ih =>
    intro i0 j hj
    simp only [initAvailFrom]
    by_cases hk : k ≠ ""
    · rw [if_pos hk]
      simp only [lookupKV]
      rw [if_neg (by omega : ¬ i0 = j)]
      exact ih (i0 + 1) j (by omega)
    · rw [if_neg hk]
      exact ih (i0 + 1) j (by omega)

theorem lookup_initAvailFrom (keys : List String) :
    ∀ i0 d, lookupKV (initAvailFrom keys i0) (i0 + d) =
      if keys.getD d "" = "" then none else some (keys.getD d "") := by
  induction keys with
  | nil => intro i0 d; simp [initAvailFrom, lookupKV]
  | cons k rest ih =>
    intro i0 d
    cases d with
    | zero =>
      by_cases hk : k = ""
      · simp only [initAvailFrom, hk, ne_eq, not_true_eq_false, ite_false,
          List.getD_cons_zero, if_pos]
        exact lookup_initAvailFrom_lt rest (i0 + 1) (i0 + 0) (by omega)
      · simp [initAvailFrom, hk, lookupKV]
    | succ d' =>
      have harith : i0 + (d' + 1) = (i0 + 1) + d' := by omega
      by_cases hk : k = ""
      · simp only [initAvailFrom, hk, ne_eq, not_true_eq_false, ite_false,
          List.getD_cons_succ, harith]
        exact ih (i0 + 1) d'
      · simp only [initAvailFrom, hk, ne_eq, not_false_eq_true, ite_true,
          lookupKV, List.getD_cons_succ, harith]
        rw [if_neg (by omega : ¬ i0 = i0 + 1 + d')]
        exact ih (i0 + 1) d'

theorem lookup_initAvail (keys : List String) (i : Nat) :
    lookupKV (initAvailFrom keys 0) i =
      if keys.getD i "" = "" then none else some (keys.getD i "") := by
  have := lookup_initAvailFrom keys 0 i
  simpa using this

/-- A freshly created scope satisfies the invariant. -/
theorem scopeInv_init (keys : List String) :
    scopeInv keys
      { availableKeys := initAvailFrom keys 0, failingKeys := [], currentIndex := 0 } := by
  constructor
  · intro i hi
    left
    refine ⟨?_, rfl⟩
    rw [lookup_initAvail, if_neg hi]
    rfl
  · intro i hi
    rw [lookup_initAvail, if_pos hi]

/-- `reactivateEntries` preserves the invariant (each processed entry
either moves a valid non-empty index wholly into `availableKeys` or
drops an invalid/empty index from `failingKeys`). -/
theorem scopeInv_reactivateEntries (keys : List String) :
    ∀ (entries : List (Nat × Nat)) (st : scopeState) (now : Nat),
      scopeInv keys st → scopeInv keys (reactivateEntries keys entries st now) := by
  intro entries
  induction entries with
  | nil => intro st now h; exact h
  | cons p rest ih =>
    intro st now h
    obtain ⟨index, reactivateTime⟩ := p
    simp only [reactivateEntries]
    by_cases hexp : now > reactivateTime
    · rw [if_pos hexp]
      by_cases hvalid : index < keys.length ∧ keys.getD index "" ≠ ""
      · rw [if_pos hvalid]
        apply ih
        constructor
        · intro i hi
          by_cases hii : i = index
          · subst hii
            left
            simp [lookupKV_insertKV_self, lookupKV_eraseKV_self]
          · have h1 := h.1 i hi
            simpa [lookupKV_insertKV_ne _ _ _ _ hii,
              lookupKV_eraseKV_ne _ _ _ hii] using h1
        · intro i hi
          have hii : i ≠ index := fun hc => hvalid.2 (hc ▸ hi)
          simpa [lookupKV_insertKV_ne _ _ _ _ hii] using h.2 i hi
      · rw [if_neg hvalid]
        apply ih
        constructor
        · intro i hi
          have hii : i ≠ index := by
            intro hc
            exact hvalid ⟨hc ▸ getD_ne_empty_lt hi, hc ▸ hi⟩
          simpa [lookupKV_eraseKV_ne _ _ _ hii] using h.1 i hi
        · exact h.2
    · rw [if_neg hexp]
      exact ih st now h

/-- `reactivateEntries` does not change the `availableKeys` binding of
an index none of whose processed failing entries has expired. -/
theorem reactivateEntries_avail_stable (keys : List String) :
    ∀ (entries : List (Nat × Nat)) (st : scopeState) (now i : Nat),
      (∀ p ∈ entries, p.1 = i → ¬ now > p.2) →
      lookupKV (reactivateEntries keys entries st now).availableKeys i =
        lookupKV st.availableKeys i := by
  intro entries
  induction entries with
  | nil => intro st now i _; rfl
  | cons p rest ih =>
    intro st now i hne
    obtain ⟨index, reactivateTime⟩ := p
    have hrest : ∀ p ∈ rest, p.1 = i → ¬ now > p.2 :=
      fun p hp => hne p (List.mem_cons_of_mem _ hp)
    simp only [reactivateEntries]
    by_cases hexp : now > reactivateTime
    · have hii : index ≠ i := by
        intro hc
        exact hne (index, reactivateTime) (List.mem_cons_self _ _) hc hexp
      rw [if_pos hexp]
      by_cases hvalid : index < keys.length ∧ keys.getD index "" ≠ ""
      · rw [if_pos hvalid, ih _ now i hrest]
        exact lookupKV_insertKV_ne _ _ _ _ (fun hc => hii hc.symm)
      · rw [if_neg hvalid]
        exact ih _ now i hrest
    · rw [if_neg hexp]
      exact ih st now i hrest

/-- After `reactivateEntries` over entries that do not mention `i`, an
`availableKeys` binding of `i` persists (special case of
`reactivateEntries_avail_stable`). -/
theorem reactivateEntries_avail_of_not_mem (keys : List String)
    (entries : List (Nat × Nat)) (st : scopeState) (now i : Nat)
    (h : ∀ p ∈ entries, p.1 ≠ i) :
    lookupKV (reactivateEntries keys entries st now).availableKeys i =
      lookupKV st.availableKeys i :=
  reactivateEntries_avail_stable keys entries st now i
    (fun p hp hpi => absurd hpi (h p hp))

/-- `reactivateEntries` keeps every `availableKeys` index below the
original key count when it was so before. -/
theorem reactivateEntries_avail_bounded (keys : List String) :
    ∀ (entries : List (Nat × Nat)) (st : scopeState) (now : Nat),
      (∀ p ∈ st.availableKeys, p.1 < keys.length) →
      ∀ p ∈ (reactivateEntries keys entries st now).availableKeys,
        p.1 < keys.length := by
  intro entries
  induction entries with
  | nil => intro st now hb; exact hb
  | cons p rest ih =>
    intro st now hb
    obtain ⟨index, reactivateTime⟩ := p
    simp only [reactivateEntries]
    by_cases hexp : now > reactivateTime
    · rw [if_pos hexp]
      by_cases hvalid : index < keys.length ∧ keys.getD index "" ≠ ""
      · rw [if_pos hvalid]
        apply ih
        intro q hq
        simp only [insertKV] at hq
        rcases List.mem_cons.mp hq with rfl | hq
        · exact hvalid.1
        · exact hb q (mem_of_eraseKV hq)
      · rw [if_neg hvalid]
        exact ih _ now hb
    · rw [if_neg hexp]
      exact ih st now hb

/-! ## Invariant preservation by the pool operations -/

/-- `getOrCreateScopeState` under the invariant: the resolved state
satisfies `scopeInv`, the returned manager still satisfies
`kmInvariant`, keeps `originalKeys` and `removalDuration`, and maps the
scope to the resolved state. -/
theorem getOrCreateScopeState_spec (km : keyManager) (scope : String)
    (h : kmInvariant km) :
    scopeInv km.originalKeys (getOrCreateScopeState km scope).1 ∧
    kmInvariant (getOrCreateScopeState km scope).2 ∧
    (getOrCreateScopeState km scope).2.originalKeys = km.originalKeys ∧
    (getOrCreateScopeState km scope).2.removalDuration = km.removalDuration ∧
    lookupKV (getOrCreateScopeState km scope).2.scopes scope =
      some (getOrCreateScopeState km scope).1 := by
  unfold getOrCreateScopeState
  cases hl : lookupKV km.scopes scope with
  | some st =>
    exact ⟨h scope st hl, h, rfl, rfl, hl⟩
  | none =>
    refine ⟨scopeInv_init km.originalKeys, ?_, rfl, rfl, lookupKV_insertKV_self _ _ _⟩
    intro s' st' hst'
    by_cases hs : s' = scope
    · subst hs
      rw [lookupKV_insertKV_self] at hst'
      cases hst'
      exact scopeInv_init km.originalKeys
    · rw [lookupKV_insertKV_ne _ _ _ _ hs] at hst'
      exact h s' st' hst'

/-- Updating one scope with a state satisfying `scopeInv` preserves the
manager invariant. -/
theorem kmInvariant_update (km : keyManager) (scope : String) (st : scopeState)
    (h : kmInvariant km) (hst : scopeInv km.originalKeys st) :
    kmInvariant { km with scopes := insertKV km.scopes scope st } := by
  intro s' st' hst'
  by_cases hs : s' = scope
  · subst hs
    rw [lookupKV_insertKV_self] at hst'
    cases hst'
    exact hst
  · rw [lookupKV_insertKV_ne _ _ _ _ hs] at hst'
    exact h s' st' hst'

/-- The sideline move of `markKeyFailed` preserves the scope
invariant. -/
theorem scopeInv_markMove (keys : List String) (st : scopeState) (i T : Nat)
    (k : String) (h : scopeInv keys st) (hk : lookupKV st.availableKeys i = some k) :
    scopeInv keys
      { st with
        failingKeys := insertKV st.failingKeys i T
        availableKeys := eraseKV st.availableKeys i } := by
  constructor
  · intro j hj
    by_cases hji : j = i
    · subst hji
      right
      simp [lookupKV_insertKV_self, lookupKV_eraseKV_self]
    · have h1 := h.1 j hj
      simpa [lookupKV_insertKV_ne _ _ _ _ hji, lookupKV_eraseKV_ne _ _ _ hji]
        using h1
  · intro j hj
    by_cases hji : j = i
    · subst hji
      rw [h.2 j hj] at hk
      cases hk
    · rw [lookupKV_eraseKV_ne _ _ _ hji]
      exact h.2 j hj

/-- `markKeyFailed` preserves the manager invariant. -/
theorem kmInvariant_markKeyFailed (km : keyManager) (scope : String)
    (keyIndex now : Nat) (h : kmInvariant km) :
    kmInvariant (markKeyFailed km scope keyIndex now) := by
  obtain ⟨hstInv, hkm1, hkeys, _, _⟩ := getOrCreateScopeState_spec km scope h
  unfold markKeyFailed
  cases hl : lookupKV (getOrCreateScopeState km scope).1.availableKeys keyIndex with
  | none => simp only [hl]; exact hkm1
  | some k =>
    simp only [hl]
    exact kmInvariant_update (getOrCreateScopeState km scope).2 scope
      { (getOrCreateScopeState km scope).1 with
        failingKeys := insertKV (getOrCreateScopeState km scope).1.failingKeys
          keyIndex (now + km.removalDuration)
        availableKeys := eraseKV (getOrCreateScopeState km scope).1.availableKeys
          keyIndex }
      hkm1 (by rw [hkeys]; exact scopeInv_markMove _ _ _ _ k hstInv hl)

/-- `getNextKey` preserves the manager invariant. -/
theorem kmInvariant_getNextKey (km : keyManager) (scope : String)
    (now randStart : Nat) (h : kmInvariant km) :
    kmInvariant (getNextKey km scope now randStart).2 := by
  obtain ⟨hstInv, hkm1, hkeys, _, _⟩ := getOrCreateScopeState_spec km scope h
  unfold getNextKey
  by_cases hN : km.originalKeys.length = 0
  · rw [if_pos hN]; exact h
  · rw [if_neg hN]
    simp only []
    by_cases hA : (getOrCreateScopeState km scope).1.availableKeys.length = 0
    · rw [if_pos hA]
      by_cases hJ : (getOrCreateScopeState km scope).1.failingKeys.length > 0 ∧
          (getOrCreateScopeState km scope).1.failingKeys.length =
            km.originalKeys.countP (fun k => decide (k ≠ ""))
      · rw [if_pos hJ]
        have hinv2 : scopeInv km.originalKeys
            (reactivateScopeKeys km.originalKeys (getOrCreateScopeState km scope).1 now) :=
          scopeInv_reactivateEntries km.originalKeys _ _ now hstInv
        have hupd := kmInvariant_update (getOrCreateScopeState km scope).2 scope
          (reactivateScopeKeys km.originalKeys (getOrCreateScopeState km scope).1 now)
          hkm1 (by rw [hkeys]; exact hinv2)
        by_cases hA2 : (reactivateScopeKeys km.originalKeys
            (getOrCreateScopeState km scope).1 now).availableKeys.length = 0
        · rw [if_pos hA2]; exact hupd
        · rw [if_neg hA2]
          cases probeAvailable (reactivateScopeKeys km.originalKeys
              (getOrCreateScopeState km scope).1 now).availableKeys
              km.originalKeys.length randStart with
          | some v => obtain ⟨key, keyIndex⟩ := v; exact hupd
          | none => exact hupd
      · rw [if_neg hJ]; exact hkm1
    · rw [if_neg hA]
      cases probeAvailable (getOrCreateScopeState km scope).1.availableKeys
          km.originalKeys.length randStart with
      | some v => obtain ⟨key, keyIndex⟩ := v; exact hkm1
      | none => exact hkm1

/-- `newKeyManager` establishes the manager invariant (the scope map
starts empty). -/
theorem kmInvariant_newKeyManager (keys : List String) (removalDuration : Nat)
    (km : keyManager) (h : newKeyManager keys removalDuration = .ok km) :
    kmInvariant km := by
  unfold newKeyManager at h
  by_cases h1 : keys.length = 0
  · rw [if_pos h1] at h; cases h
  · rw [if_neg h1] at h
    by_cases h2 : removalDuration = 0
    · rw [if_pos h2] at h; cases h
    · rw [if_neg h2] at h
      by_cases h3 : keys.countP (fun k => decide (k ≠ "")) = 0
      · rw [if_pos h3] at h; cases h
      · rw [if_neg h3] at h
        cases h
        intro s st hst
        cases hst

theorem getOrCreateScopeState_originalKeys (km : keyManager) (scope : String) :
    (getOrCreateScopeState km scope).2.originalKeys = km.originalKeys := by
  unfold getOrCreateScopeState
  cases lookupKV km.scopes scope <;> rfl

theorem getOrCreateScopeState_removalDuration (km : keyManager) (scope : String) :
    (getOrCreateScopeState km scope).2.removalDuration = km.removalDuration := by
  unfold getOrCreateScopeState
  cases lookupKV km.scopes scope <;> rfl

theorem getOrCreateScopeState_lookup_self (km : keyManager) (scope : String) :
    lookupKV (getOrCreateScopeState km scope).2.scopes scope =
      some (getOrCreateScopeState km scope).1 := by
  unfold getOrCreateScopeState
  cases hl : lookupKV km.scopes scope with
  | some st => exact hl
  | none => exact lookupKV_insertKV_self _ _ _

/-- When the index is available in the scope, `markKeyFailed` performs
exactly the sideline move. -/
theorem markKeyFailed_eq_of_avail (km : keyManager) (scope : String)
    (keyIndex now : Nat) (k : String)
    (h : lookupKV (getOrCreateScopeState km scope).1.availableKeys keyIndex = some k) :
    markKeyFailed km scope keyIndex now =
      { (getOrCreateScopeState km scope).2 with
        scopes := insertKV (getOrCreateScopeState km scope).2.scopes scope
          { (getOrCreateScopeState km scope).1 with
            failingKeys := insertKV (getOrCreateScopeState km scope).1.failingKeys
              keyIndex (now + km.removalDuration)
            availableKeys := eraseKV (getOrCreateScopeState km scope).1.availableKeys
              keyIndex } } := by
  unfold markKeyFailed
  simp only [h]

/-! ## Claims C3 and C5 -/

/-- C3: for every scope and every index whose configured credential is
non-empty, after any completed `getNextKey` or `markKeyFailed` the index
is in exactly one of that scope's `availableKeys` and `failingKeys`
(and an index with an empty configured credential is never in
`availableKeys`): the invariant `kmInvariant` — which states exactly
this for every materialised scope — is established by `newKeyManager`
and preserved by both operations. -/
theorem pool_membership_invariant :
    (∀ keys removalDuration km,
        newKeyManager keys removalDuration = .ok km → kmInvariant km) ∧
    (∀ km, kmInvariant km →
        ∀ scope keyIndex now, kmInvariant (markKeyFailed km scope keyIndex now)) ∧
    (∀ km, kmInvariant km →
        ∀ scope now randStart, kmInvariant (getNextKey km scope now randStart).2) :=
  ⟨kmInvariant_newKeyManager,
   fun km h scope keyIndex now => kmInvariant_markKeyFailed km scope keyIndex now h,
   fun km h scope now randStart => kmInvariant_getNextKey km scope now randStart h⟩

/-- Concrete instantiation of C3: sideline index 0 of `["k1", ""]` in a
fresh manager and then acquire once; the invariant holds afterwards. -/
theorem pool_membership_invariant_witness :
    kmInvariant
      (getNextKey
        (markKeyFailed
          { originalKeys := ["k1", ""], scopes := [], removalDuration := 100 }
          "example.com|/v1" 0 5)
        "example.com|/v1" 6 1).2 :=
  pool_membership_invariant.2.2
    (markKeyFailed
      { originalKeys := ["k1", ""], scopes := [], removalDuration := 100 }
      "example.com|/v1" 0 5)
    (pool_membership_invariant.2.1
      { originalKeys := ["k1", ""], scopes := [], removalDuration := 100 }
      (fun _ _ h => nomatch h) "example.com|/v1" 0 5)
    "example.com|/v1" 6 1

/-- C5: `markKeyFailed` on scope A leaves every other scope B untouched:
B's entry in the scope map (hence its `availableKeys` and `failingKeys`)
is unchanged. -/
theorem markKeyFailed_frame (km : keyManager) (A B : String) (keyIndex now : Nat)
    (h : B ≠ A) :
    lookupKV (markKeyFailed km A keyIndex now).scopes B = lookupKV km.scopes B := by
  unfold markKeyFailed getOrCreateScopeState
  cases hl : lookupKV km.scopes A with
  | some st =>
    simp only [hl]
    cases lookupKV st.availableKeys keyIndex with
    | some k => exact lookupKV_insertKV_ne _ _ _ _ h
    | none => rfl
  | none =>
    simp only [hl]
    cases lookupKV (initAvailFrom km.originalKeys 0) keyIndex with
    | some k =>
      rw [lookupKV_insertKV_ne _ _ _ _ h, lookupKV_insertKV_ne _ _ _ _ h]
    | none =>
      exact lookupKV_insertKV_ne _ _ _ _ h

/-- Concrete instantiation of C5: sidelining key 0 under scope
`a.com|/x` does not change scope `b.com|/y`. -/
theorem markKeyFailed_frame_witness :
    lookupKV
      (markKeyFailed
        { originalKeys := ["k1", "k2"],
          scopes := [("b.com|/y",
            { availableKeys := [(0, "k1"), (1, "k2")], failingKeys := [],
              currentIndex := 0 })],
          removalDuration := 100 }
        "a.com|/x" 0 7).scopes "b.com|/y" =
    some
      { availableKeys := [(0, "k1"), (1, "k2")], failingKeys := [],
        currentIndex := 0 } := by
  rw [markKeyFailed_frame _ "a.com|/x" "b.com|/y" 0 7 (by decide)]
  rfl

/-! ## Claim C10: the probe error branch is unreachable -/

/-- C10: when every index of the scope's `availableKeys` lies below the
original key count, `getNextKey` never takes the trailing "no available
key found after checking all indices" branch, and it returns an error
only when the scope's `availableKeys` (after the just-in-time sweep) is
empty. -/
theorem getNextKey_error_iff_no_available (km : keyManager) (scope : String)
    (now randStart : Nat)
    (hN : km.originalKeys.length ≠ 0)
    (hb : ∀ p ∈ (getOrCreateScopeState km scope).1.availableKeys,
        p.1 < km.originalKeys.length)
    (e : GetKeyError) (km' : keyManager)
    (h : getNextKey km scope now randStart = (.error e, km')) :
    e ≠ GetKeyError.probeExhausted ∧
    ∃ st, lookupKV km'.scopes scope = some st ∧ st.availableKeys = [] := by
  have hN' : 0 < km.originalKeys.length := Nat.pos_of_ne_zero hN
  unfold getNextKey at h
  rw [if_neg hN] at h
  simp only [] at h
  by_cases hA : (getOrCreateScopeState km scope).1.availableKeys.length = 0
  · rw [if_pos hA] at h
    by_cases hJ : (getOrCreateScopeState km scope).1.failingKeys.length > 0 ∧
        (getOrCreateScopeState km scope).1.failingKeys.length =
          km.originalKeys.countP (fun k => decide (k ≠ ""))
    · rw [if_pos hJ] at h
      by_cases hA2 : (reactivateScopeKeys km.originalKeys
          (getOrCreateScopeState km scope).1 now).availableKeys.length = 0
      · rw [if_pos hA2] at h
        obtain ⟨he, hkm'⟩ : Except.error (α := String × Nat) GetKeyError.allFailing
              = .error e ∧
            ({ (getOrCreateScopeState km scope).2 with
              scopes := insertKV (getOrCreateScopeState km scope).2.scopes scope
                (reactivateScopeKeys km.originalKeys
                  (getOrCreateScopeState km scope).1 now) } : keyManager) = km' := by
          constructor
          · exact congrArg Prod.fst h
          · exact congrArg Prod.snd h
        cases he
        refine ⟨by simp, reactivateScopeKeys km.originalKeys
          (getOrCreateScopeState km scope).1 now, ?_, List.length_eq_zero.mp hA2⟩
        rw [← hkm']
        exact lookupKV_insertKV_self _ _ _
      · rw [if_neg hA2] at h
        have hbound : ∀ p ∈ (reactivateScopeKeys km.originalKeys
            (getOrCreateScopeState km scope).1 now).availableKeys,
            p.1 < km.originalKeys.length :=
          reactivateEntries_avail_bounded km.originalKeys
            (getOrCreateScopeState km scope).1.failingKeys
            (getOrCreateScopeState km scope).1 now hb
        have hne : (reactivateScopeKeys km.originalKeys
            (getOrCreateScopeState km scope).1 now).availableKeys ≠ [] := by
          intro hc
          exact hA2 (by rw [hc]; rfl)
        have hprobe := @probeAvailable_isSome _ km.originalKeys.length randStart
          hN' hbound hne
        cases hp : probeAvailable (reactivateScopeKeys km.originalKeys
            (getOrCreateScopeState km scope).1 now).availableKeys
            km.originalKeys.length randStart with
        | some v =>
          rw [hp] at h
          obtain ⟨key, keyIndex⟩ := v
          exact absurd (congrArg Prod.fst h) (by simp)
        | none => rw [hp] at hprobe; cases hprobe
    · rw [if_neg hJ] at h
      obtain ⟨he, hkm'⟩ : Except.error (α := String × Nat) GetKeyError.noneConfigured
            = .error e ∧ (getOrCreateScopeState km scope).2 = km' := by
        constructor
        · exact congrArg Prod.fst h
        · exact congrArg Prod.snd h
      cases he
      refine ⟨by simp, (getOrCreateScopeState km scope).1, ?_, List.length_eq_zero.mp hA⟩
      rw [← hkm']
      exact getOrCreateScopeState_lookup_self km scope
  · rw [if_neg hA] at h
    have hne : (getOrCreateScopeState km scope).1.availableKeys ≠ [] := by
      intro hc
      exact hA (by rw [hc]; rfl)
    have hprobe := @probeAvailable_isSome _ km.originalKeys.length randStart
      hN' hb hne
    cases hp : probeAvailable (getOrCreateScopeState km scope).1.availableKeys
        km.originalKeys.length randStart with
    | some v =>
      rw [hp] at h
      obtain ⟨key, keyIndex⟩ := v
      exact absurd (congrArg Prod.fst h) (by simp)
    | none => rw [hp] at hprobe; cases hprobe

/-- Concrete instantiation of C10: a scope where the single key is
failing and unexpired makes `getNextKey` fail (`allFailing`, not the
probe branch) with the scope's `availableKeys` empty. -/
theorem getNextKey_error_iff_no_available_witness :
    GetKeyError.allFailing ≠ GetKeyError.probeExhausted ∧
    ∃ st,
      lookupKV
        (getNextKey
          { originalKeys := ["k1"],
            scopes := [("a.com|/x",
              { availableKeys := [], failingKeys := [(0, 100)], currentIndex := 0 })],
            removalDuration := 100 }
          "a.com|/x" 50 0).2.scopes "a.com|/x" = some st ∧
      st.availableKeys = [] :=
  getNextKey_error_iff_no_available
    { originalKeys := ["k1"],
      scopes := [("a.com|/x",
        { availableKeys := [], failingKeys := [(0, 100)], currentIndex := 0 })],
      removalDuration := 100 }
    "a.com|/x" 50 0 (by decide) (by intro p hp; cases hp)
    GetKeyError.allFailing
    (getNextKey
      { originalKeys := ["k1"],
        scopes := [("a.com|/x",
          { availableKeys := [], failingKeys := [(0, 100)], currentIndex := 0 })],
        removalDuration := 100 }
      "a.com|/x" 50 0).2
    (by rfl)

/-! ## Claim C4: the removal window -/

theorem lookupKV_map_snd {κ α β : Type} [DecidableEq κ]
    (m : List (κ × α)) (g : α → β) (k : κ) :
    lookupKV (m.map (fun p => (p.1, g p.2))) k = (lookupKV m k).map g := by
  induction m with
  | nil => rfl
  | cons p rest ih =>
    by_cases hp : p.1 = k <;> simp [lookupKV, hp, ih]

/-- A successful `getNextKey` returns an index that is available in the
scope's state, either as resolved or after the just-in-time sweep. -/
theorem getNextKey_ok_lookup (km : keyManager) (scope : String)
    (now randStart : Nat) (key : String) (idx : Nat)
    (h : (getNextKey km scope now randStart).1 = .ok (key, idx)) :
    lookupKV (getOrCreateScopeState km scope).1.availableKeys idx = some key ∨
    lookupKV (reactivateScopeKeys km.originalKeys
      (getOrCreateScopeState km scope).1 now).availableKeys idx = some key := by
  unfold getNextKey at h
  by_cases hN : km.originalKeys.length = 0
  · rw [if_pos hN] at h; exact absurd h (by simp)
  · rw [if_neg hN] at h
    simp only [] at h
    by_cases hA : (getOrCreateScopeState km scope).1.availableKeys.length = 0
    · rw [if_pos hA] at h
      by_cases hJ : (getOrCreateScopeState km scope).1.failingKeys.length > 0 ∧
          (getOrCreateScopeState km scope).1.failingKeys.length =
            km.originalKeys.countP (fun k => decide (k ≠ ""))
      · rw [if_pos hJ] at h
        by_cases hA2 : (reactivateScopeKeys km.originalKeys
            (getOrCreateScopeState km scope).1 now).availableKeys.length = 0
        · rw [if_pos hA2] at h; exact absurd h (by simp)
        · rw [if_neg hA2] at h
          cases hp : probeAvailable (reactivateScopeKeys km.originalKeys
              (getOrCreateScopeState km scope).1 now).availableKeys
              km.originalKeys.length randStart with
          | some v =>
            obtain ⟨k', i'⟩ := v
            rw [hp] at h
            simp only [] at h
            obtain ⟨rfl, rfl⟩ : k' = key ∧ i' = idx := by
              have := Except.ok.inj h
              exact ⟨congrArg Prod.fst this, congrArg Prod.snd this⟩
            right
            exact probeAvailable_mem hp
          | none => rw [hp] at h; exact absurd h (by simp)
      · rw [if_neg hJ] at h; exact absurd h (by simp)
    · rw [if_neg hA] at h
      cases hp : probeAvailable (getOrCreateScopeState km scope).1.availableKeys
          km.originalKeys.length randStart with
      | some v =>
        obtain ⟨k', i'⟩ := v
        rw [hp] at h
        simp only [] at h
        obtain ⟨rfl, rfl⟩ : k' = key ∧ i' = idx := by
          have := Except.ok.inj h
          exact ⟨congrArg Prod.fst this, congrArg Prod.snd this⟩
        left
        exact probeAvailable_mem hp
      | none => rw [hp] at h; exact absurd h (by simp)

/-- C4: sideline index `i` of scope `s` at time `t` (the index was
available, its credential non-empty).  (a) Any `getNextKey` on that
scope at a time `t' ≤ t + removalDuration` never returns index `i`.
(b) At any `t' > t + removalDuration`, the sweep (`reactivateKeys`,
whose per-entry logic is shared with the just-in-time path) moves `i`
back into the scope's `availableKeys`. -/
theorem markFailed_removal_window (km : keyManager) (s : String) (i t : Nat)
    (k : String)
    (havail : lookupKV (getOrCreateScopeState km s).1.availableKeys i = some k)
    (hne : km.originalKeys.getD i "" ≠ "") :
    (∀ t' randStart key idx,
        t' ≤ t + km.removalDuration →
        (getNextKey (markKeyFailed km s i t) s t' randStart).1 = .ok (key, idx) →
        idx ≠ i) ∧
    (∀ t', t' > t + km.removalDuration →
        ∃ st, lookupKV (reactivateKeys (markKeyFailed km s i t) t').scopes s = some st ∧
          lookupKV st.availableKeys i = some (km.originalKeys.getD i "")) := by
  have hchar := markKeyFailed_eq_of_avail km s i t k havail
  set st0 := (getOrCreateScopeState km s).1 with hst0
  set stM : scopeState :=
    { st0 with
      failingKeys := insertKV st0.failingKeys i (t + km.removalDuration)
      availableKeys := eraseKV st0.availableKeys i } with hstM
  set km' := markKeyFailed km s i t with hkm'
  have hlook : lookupKV km'.scopes s = some stM := by
    rw [hchar]
    exact lookupKV_insertKV_self _ _ _
  have hresolve : getOrCreateScopeState km' s = (stM, km') := by
    unfold getOrCreateScopeState
    rw [hlook]
  have hkeys' : km'.originalKeys = km.originalKeys := by
    rw [hchar]
    exact getOrCreateScopeState_originalKeys km s
  have hfailM : stM.failingKeys =
      (i, t + km.removalDuration) :: eraseKV st0.failingKeys i := rfl
  have hstable : ∀ p ∈ stM.failingKeys, p.1 = i →
      ∀ t', t' ≤ t + km.removalDuration → ¬ t' > p.2 := by
    intro p hp hpi t' ht'
    rw [hfailM] at hp
    rcases List.mem_cons.mp hp with rfl | hp
    · simpa using ht'
    · exact absurd hpi (eraseKV_keys_ne _ _ p hp)
  constructor
  · intro t' randStart key idx ht' hok
    intro hidx
    subst hidx
    rcases getNextKey_ok_lookup km' s t' randStart key idx hok with hc | hc
    · rw [hresolve] at hc
      simp only [hstM] at hc
      rw [lookupKV_eraseKV_self] at hc
      cases hc
    · rw [hresolve] at hc
      have hstab := reactivateEntries_avail_stable km'.originalKeys
        stM.failingKeys stM t' idx (fun p hp hpi => hstable p hp hpi t' ht')
      rw [reactivateScopeKeys] at hc
      rw [hstab] at hc
      simp only [hstM] at hc
      rw [lookupKV_eraseKV_self] at hc
      cases hc
  · intro t' ht'
    refine ⟨reactivateEntries km'.originalKeys stM.failingKeys stM t', ?_, ?_⟩
    · show lookupKV (km'.scopes.map (fun p =>
        (p.1, reactivateEntries km'.originalKeys p.2.failingKeys p.2 t'))) s = _
      rw [lookupKV_map_snd km'.scopes
        (fun st => reactivateEntries km'.originalKeys st.failingKeys st t') s, hlook]
      rfl
    · rw [hfailM]
      have hvalid : i < km'.originalKeys.length ∧ km'.originalKeys.getD i "" ≠ "" := by
        rw [hkeys']
        exact ⟨getD_ne_empty_lt hne, hne⟩
      simp only [reactivateEntries, if_pos ht', if_pos hvalid]
      rw [reactivateEntries_avail_of_not_mem km'.originalKeys _ _ t' i
        (eraseKV_keys_ne st0.failingKeys i)]
      rw [lookupKV_insertKV_self, hkeys']

/-- Concrete instantiation of C4: keys `["k1","k2"]`, sideline index 0
at time 10 with removal duration 100; an acquire at time 50 returns
index 1 (not 0), and the sweep at time 111 restores index 0. -/
theorem markFailed_removal_window_witness :
    (1 : Nat) ≠ 0 ∧
    ∃ st,
      lookupKV
        (reactivateKeys
          (markKeyFailed
            { originalKeys := ["k1", "k2"], scopes := [], removalDuration := 100 }
            "a.com|/x" 0 10) 111).scopes "a.com|/x" = some st ∧
      lookupKV st.availableKeys 0 = some "k1" :=
  ⟨(markFailed_removal_window
      { originalKeys := ["k1", "k2"], scopes := [], removalDuration := 100 }
      "a.com|/x" 0 10 "k1" (by rfl) (by decide)).1 50 0 "k2" 1 (by decide) (by rfl),
   (markFailed_removal_window
      { originalKeys := ["k1", "k2"], scopes := [], removalDuration := 100 }
      "a.com|/x" 0 10 "k1" (by rfl) (by decide)).2 111 (by decide)⟩

/-! ## Claim C1: single key, upstream always 429 -/

/-- C1 (counterexample to the claim as stated): with keys `["k1"]` and
the upstream answering 429 on every attempt, the transport does NOT
deliver `UpstreamExhausted` with status 429 — it delivers the
acquire-failure error carrying status 503, because the second attempt's
`getNextKey` fails with `AllFailing`. -/
theorem single_key_all_429_counterexample :
    (roundTrip { originalKeys := ["k1"], scopes := [], removalDuration := 100 }
      "host" "/path" (fun _ => .response 429) (fun _ => 0) (fun _ => 0)).1 ≠
      RTOutcome.upstreamExhausted 429 ∧
    (roundTrip { originalKeys := ["k1"], scopes := [], removalDuration := 100 }
      "host" "/path" (fun _ => .response 429) (fun _ => 0) (fun _ => 0)).1 =
      RTOutcome.credentialUnavailable 503 := by
  constructor
  · intro h
    rw [show (roundTrip { originalKeys := ["k1"], scopes := [], removalDuration := 100 }
        "host" "/path" (fun _ => .response 429) (fun _ => 0) (fun _ => 0)).1 =
        RTOutcome.credentialUnavailable 503 from rfl] at h
    cases h
  · rfl

/-- C1 (amended): with keys `["k1"]` and the upstream answering 429 on
every attempt, the first attempt's 429 sidelines the single key for the
scope; the second attempt's `getNextKey` fails (`AllFailing`) and the
transport returns the terminal `CredentialUnavailable` error carrying
status 503 (not 429); afterwards the credential is in that scope's
failing map with reactivation time `t + removalDuration` and the
scope's available map is empty. -/
theorem single_key_all_429_terminal :
    roundTrip { originalKeys := ["k1"], scopes := [], removalDuration := 100 }
      "host" "/path" (fun _ => .response 429) (fun _ => 0) (fun _ => 0) =
    (RTOutcome.credentialUnavailable 503,
     { originalKeys := ["k1"],
       scopes := [("host|/path",
         { availableKeys := [], failingKeys := [(0, 100)], currentIndex := 0 })],
       removalDuration := 100 }) := rfl

/-! ## Claim C2: per-attempt outcome classification -/

/-- C2 (amended): the per-attempt classification of the scoped
`RoundTrip`.  A transport error retries exactly when it is a
`net.Error` timeout or matches `io.EOF`/`io.ErrUnexpectedEOF` (a
temporary non-timeout network error is returned immediately, the
`Temporary()` test having been dropped in the scoped generation); a 429
response retries after sidelining the attempt's credential for the
request's scope via `markKeyFailed`; a 5xx response other than 501 and
505 retries without sidelining; every other status (2xx, 3xx, non-429
4xx, and 501/505) is returned to the caller. -/
theorem attempt_classification :
    (∀ e : TransportError, ((e.isNetError ∧ e.timeout) ∨ e.isEOF) →
        classifyAttempt (.transportError e) = .retryNoMark) ∧
    (∀ e : TransportError, ¬((e.isNetError ∧ e.timeout) ∨ e.isEOF) →
        classifyAttempt (.transportError e) = .returnError) ∧
    classifyAttempt (.response 429) = .retryMark ∧
    (∀ status, 500 ≤ status → status ≠ 501 → status ≠ 505 →
        classifyAttempt (.response status) = .retryServerError) ∧
    (∀ status, status < 500 → status ≠ 429 →
        classifyAttempt (.response status) = .returnResponse) ∧
    classifyAttempt (.response 501) = .returnResponse ∧
    classifyAttempt (.response 505) = .returnResponse ∧
    (∀ km km1 scope oracle rand timeAt attempt r key idx,
        getNextKey km scope (timeAt attempt) (rand attempt) = (.ok (key, idx), km1) →
        oracle attempt = .response 429 →
        roundTripLoop km scope oracle rand timeAt attempt (r + 2) =
          roundTripLoop (markKeyFailed km1 scope idx (timeAt attempt))
            scope oracle rand timeAt (attempt + 1) (r + 1)) := by
  refine ⟨?_, ?_, rfl, ?_, ?_, by decide, by decide, ?_⟩
  · intro e he
    obtain ⟨n, tmo, tmp, eof⟩ := e
    simp only [classifyAttempt, isRetryableTransportError]
    cases n <;> cases tmo <;> cases eof <;> simp_all
  · intro e he
    obtain ⟨n, tmo, tmp, eof⟩ := e
    simp only [classifyAttempt, isRetryableTransportError]
    cases n <;> cases tmo <;> cases eof <;> simp_all
  · intro status h1 h2 h3
    simp only [classifyAttempt]
    rw [if_neg (by omega : ¬ status = 429), if_pos ⟨h1, h2, h3⟩]
  · intro status h1 h2
    simp only [classifyAttempt]
    rw [if_neg h2, if_neg (by omega : ¬ (500 ≤ status ∧ status ≠ 501 ∧ status ≠ 505))]
  · intro km km1 scope oracle rand timeAt attempt r key idx hget horacle
    conv_lhs => rw [roundTripLoop]
    rw [hget, horacle]
    simp only [if_pos rfl]
    rw [if_neg (by omega : ¬ r + 1 = 0)]
    simp

/-- Concrete instantiation of C2: a timeout retries, a 502 retries, a
404 is returned, and a 429 step sidelines key 0 and recurses. -/
theorem attempt_classification_witness :
    classifyAttempt (.transportError
      { isNetError := true, timeout := true, temporary := false, isEOF := false }) =
        .retryNoMark ∧
    classifyAttempt (.response 502) = .retryServerError ∧
    classifyAttempt (.response 404) = .returnResponse ∧
    roundTripLoop { originalKeys := ["k1"], scopes := [], removalDuration := 100 }
        "h|/p" (fun _ => .response 429) (fun _ => 0) (fun _ => 0) 0 2 =
      roundTripLoop
        (markKeyFailed
          (getNextKey { originalKeys := ["k1"], scopes := [], removalDuration := 100 }
            "h|/p" 0 0).2 "h|/p" 0 0)
        "h|/p" (fun _ => .response 429) (fun _ => 0) (fun _ => 0) 1 1 :=
  ⟨attempt_classification.1
      { isNetError := true, timeout := true, temporary := false, isEOF := false }
      (Or.inl ⟨rfl, rfl⟩),
   attempt_classification.2.2.2.1 502 (by decide) (by decide) (by decide),
   attempt_classification.2.2.2.2.1 404 (by decide) (by decide),
   attempt_classification.2.2.2.2.2.2.2
      { originalKeys := ["k1"], scopes := [], removalDuration := 100 }
      (getNextKey { originalKeys := ["k1"], scopes := [], removalDuration := 100 }
        "h|/p" 0 0).2
      "h|/p" (fun _ => .response 429) (fun _ => 0) (fun _ => 0) 0 0 "k1" 0
      (by rfl) rfl⟩

/-- C2 (counterexample to the claim as stated): a `net.Error` that is
`Temporary()` but not a timeout (and not EOF) is returned immediately by
the scoped transport, not retried: the claim's "transient network
error → retry" row fails. -/
theorem transient_error_counterexample :
    classifyAttempt (.transportError
      { isNetError := true, timeout := false, temporary := true, isEOF := false }) =
      .returnError ∧
    AttemptAction.returnError ≠ AttemptAction.retryNoMark := by
  exact ⟨rfl, by decide⟩

/-! ## Claim C6: mutually exclusive auth channels -/

/-- C6: per attempt, if the request path contains any configured
header-auth substring the transport sets `Authorization: Bearer <key>`
and deletes the key query parameter; otherwise it deletes
`Authorization` and sets the key query parameter — so exactly one of
the two channels carries the credential. -/
theorem applyAuth_exclusive_channels (headerAuthPaths : List String)
    (keyParam apiKey : String) (req : RequestAuth) :
    (headerAuthPaths.any (fun p => containsSubstr req.path p) = true →
        (applyAuth headerAuthPaths keyParam apiKey req).authHeader =
            some ("Bearer " ++ apiKey) ∧
        lookupKV (applyAuth headerAuthPaths keyParam apiKey req).query keyParam =
            none) ∧
    (headerAuthPaths.any (fun p => containsSubstr req.path p) = false →
        (applyAuth headerAuthPaths keyParam apiKey req).authHeader = none ∧
        lookupKV (applyAuth headerAuthPaths keyParam apiKey req).query keyParam =
            some apiKey) ∧
    (((applyAuth headerAuthPaths keyParam apiKey req).authHeader =
          some ("Bearer " ++ apiKey) ∧
        lookupKV (applyAuth headerAuthPaths keyParam apiKey req).query keyParam =
          none) ∨
      ((applyAuth headerAuthPaths keyParam apiKey req).authHeader = none ∧
        lookupKV (applyAuth headerAuthPaths keyParam apiKey req).query keyParam =
          some apiKey)) := by
  by_cases h : headerAuthPaths.any (fun p => containsSubstr req.path p) = true
  · refine ⟨fun _ => ?_, fun hf => absurd h (by rw [hf]; decide), Or.inl ?_⟩ <;>
      (constructor <;> simp [applyAuth, h, lookupKV_eraseKV_self])
  · have hf : headerAuthPaths.any (fun p => containsSubstr req.path p) = false :=
      Bool.eq_false_iff.mpr h
    refine ⟨fun ht => absurd ht h, fun _ => ?_, Or.inr ?_⟩ <;>
      (constructor <;> simp [applyAuth, hf, lookupKV_insertKV_self])

/-- Concrete instantiation of C6: path `/openai/v1/chat/completions`
with header-auth substring `/openai/` uses the header channel; path
`/v1beta/models/gemini-pro` uses the query channel. -/
theorem applyAuth_exclusive_channels_witness :
    ((applyAuth ["/openai/"] "key" "k1"
        { path := "/openai/v1/chat/completions", authHeader := none,
          query := [("key", "old")] }).authHeader = some ("Bearer " ++ "k1") ∧
      lookupKV (applyAuth ["/openai/"] "key" "k1"
        { path := "/openai/v1/chat/completions", authHeader := none,
          query := [("key", "old")] }).query "key" = none) ∧
    ((applyAuth ["/openai/"] "key" "k1"
        { path := "/v1beta/models/gemini-pro", authHeader := some "Bearer stale",
          query := [] }).authHeader = none ∧
      lookupKV (applyAuth ["/openai/"] "key" "k1"
        { path := "/v1beta/models/gemini-pro", authHeader := some "Bearer stale",
          query := [] }).query "key" = some "k1") :=
  ⟨(applyAuth_exclusive_channels ["/openai/"] "key" "k1"
      { path := "/openai/v1/chat/completions", authHeader := none,
        query := [("key", "old")] }).1 (by decide),
   (applyAuth_exclusive_channels ["/openai/"] "key" "k1"
      { path := "/v1beta/models/gemini-pro", authHeader := some "Bearer stale",
        query := [] }).2.1 (by decide)⟩

/-! ## Claim C7: the post-processor's marking condition -/

/-- C7: the response post-processor marks the context-carried credential
as failed exactly when the final status is ≥ 400, < 500 and ≠ 429; any
2xx, 3xx, 5xx or 429 status marks nothing, and a missing context index
marks nothing. -/
theorem modifyResponse_marking (km : keyManager) (scope : String)
    (keyIndex status now : Nat) :
    (400 ≤ status → status < 500 → status ≠ 429 →
        modifyResponse km scope (some keyIndex) status now =
          markKeyFailed km scope keyIndex now) ∧
    (status < 400 ∨ 500 ≤ status ∨ status = 429 →
        modifyResponse km scope (some keyIndex) status now = km) ∧
    modifyResponse km scope none status now = km := by
  refine ⟨?_, ?_, rfl⟩
  · intro h1 h2 h3
    simp only [modifyResponse]
    rw [if_pos (by omega : status < 200 ∨ 300 ≤ status), if_pos ⟨h1, h2, h3⟩]
  · intro h
    simp only [modifyResponse]
    by_cases houter : status < 200 ∨ 300 ≤ status
    · rw [if_pos houter,
        if_neg (by omega : ¬ (400 ≤ status ∧ status < 500 ∧ status ≠ 429))]
    · rw [if_neg houter]

/-- Concrete instantiation of C7: a 403 marks the key, a 429 and a 200
mark nothing, and a missing index marks nothing. -/
theorem modifyResponse_marking_witness :
    (modifyResponse { originalKeys := ["k1"], scopes := [], removalDuration := 100 }
        "h|/p" (some 0) 403 5 =
      markKeyFailed { originalKeys := ["k1"], scopes := [], removalDuration := 100 }
        "h|/p" 0 5) ∧
    (modifyResponse { originalKeys := ["k1"], scopes := [], removalDuration := 100 }
        "h|/p" (some 0) 429 5 =
      { originalKeys := ["k1"], scopes := [], removalDuration := 100 }) ∧
    (modifyResponse { originalKeys := ["k1"], scopes := [], removalDuration := 100 }
        "h|/p" (some 0) 200 5 =
      { originalKeys := ["k1"], scopes := [], removalDuration := 100 }) ∧
    modifyResponse { originalKeys := ["k1"], scopes := [], removalDuration := 100 }
        "h|/p" none 502 5 =
      { originalKeys := ["k1"], scopes := [], removalDuration := 100 } :=
  ⟨(modifyResponse_marking
      { originalKeys := ["k1"], scopes := [], removalDuration := 100 }
      "h|/p" 0 403 5).1 (by decide) (by decide) (by decide),
   (modifyResponse_marking
      { originalKeys := ["k1"], scopes := [], removalDuration := 100 }
      "h|/p" 0 429 5).2.1 (Or.inr (Or.inr rfl)),
   (modifyResponse_marking
      { originalKeys := ["k1"], scopes := [], removalDuration := 100 }
      "h|/p" 0 200 5).2.1 (Or.inl (by decide)),
   (modifyResponse_marking
      { originalKeys := ["k1"], scopes := [], removalDuration := 100 }
      "h|/p" 0 502 5).2.2⟩

/-! ## Claim C8: trigger-word rewrite of `tools` -/

/-- C8 (amended): for a JSON-object body in which the trigger word
occurs (case-insensitive whole-word) in some `contents[*].parts[*].text`
fragment, and whose top-level `tools` member is absent, an array, or
any non-object value, the rewriter replaces `tools` with the
single-element list `[{google_search: {}}]` (hence no
`functionDeclarations` survive).  (When `tools` is a JSON object the
source instead deletes `functionDeclarations` inside that object and
adds a `google_search` entry, keeping the object's other members — see
the counterexample.) -/
theorem trigger_rewrite_sets_tools (requestData : List (String × JValue))
    (trigger : String)
    (htrig : triggerFound requestData trigger = true)
    (htools : ∀ m, lookupKV requestData "tools" ≠ some (JValue.obj m)) :
    modifyParsedBody requestData trigger =
      .rewritten (insertKV requestData "tools" (.arr [googleSearchTool])) ∧
    lookupKV (insertKV requestData "tools" (.arr [googleSearchTool])) "tools" =
      some (.arr [googleSearchTool]) := by
  refine ⟨?_, lookupKV_insertKV_self _ _ _⟩
  simp only [modifyParsedBody, htrig, if_true]
  cases hl : lookupKV requestData "tools" with
  | none => rfl
  | some v =>
    cases v with
    | obj m => exact absurd hl (htools m)
    | null => rfl
    | bool b => rfl
    | num n => rfl
    | str s => rfl
    | arr xs => rfl

/-- Concrete instantiation of C8: trigger `search` inside
`contents[0].parts[0].text`, no prior `tools` — the rewriter sets
`tools` to `[{google_search: {}}]`. -/
theorem trigger_rewrite_sets_tools_witness :
    modifyParsedBody
      [("contents", .arr [.obj [("parts",
          .arr [.obj [("text", .str "please search the web")]])]])] "search" =
      .rewritten (insertKV
        [("contents", .arr [.obj [("parts",
            .arr [.obj [("text", .str "please search the web")]])]])]
        "tools" (.arr [googleSearchTool])) ∧
    lookupKV (insertKV
        ([("contents", JValue.arr [JValue.obj [("parts",
            JValue.arr [JValue.obj [("text", JValue.str "please search the web")]])]])] :
          List (String × JValue))
        "tools" (JValue.arr [googleSearchTool])) "tools" =
      some (JValue.arr [googleSearchTool]) :=
  trigger_rewrite_sets_tools
    [("contents", .arr [.obj [("parts",
        .arr [.obj [("text", .str "please search the web")]])]])]
    "search" (by decide) (fun m h => nomatch h)

/-- C8 (counterexample to the claim as stated): when the prior `tools`
member is a JSON object carrying `functionDeclarations`, the rewriter
does not set `tools` to `[{google_search: {}}]`: it rewrites the object
in place (deleting `functionDeclarations`, adding `google_search`,
keeping `other_stuff`). -/
theorem trigger_rewrite_tools_map_counterexample :
    modifyParsedBody
      [("contents", .arr [.obj [("parts", .arr [.obj [("text", .str "search now")]])]]),
       ("tools", .obj [("functionDeclarations",
          .arr [.obj [("name", .str "find_theaters")]]), ("other_stuff", .num 1)])]
      "search" =
      .rewritten
        [("tools", .obj [("google_search", .obj []), ("other_stuff", .num 1)]),
         ("contents", .arr [.obj [("parts",
            .arr [.obj [("text", .str "search now")]])]])] ∧
    some (JValue.obj [("google_search", .obj []), ("other_stuff", .num 1)]) ≠
      some (JValue.arr [googleSearchTool]) := by
  refine ⟨rfl, ?_⟩
  intro h
  have := Option.some.inj h
  cases this

/-! ## Claim C9: identity cases of the body rewrite -/

/-- C9: the body rewrite returns its input bytes unchanged when (1) the
inject-search flag is false, (2) the input does not parse as JSON, and
(3) the input is already rewritten — trigger absent, no
`functionDeclarations`, and a `google_search` entry already present in
`tools` (array or object form). -/
theorem body_rewrite_identity :
    (∀ (marshal : List (String × JValue) → String) raw parsed trigger,
        handlePostBodyBytes marshal raw parsed false trigger = raw) ∧
    (∀ (marshal : List (String × JValue) → String) raw flag trigger,
        handlePostBodyBytes marshal raw none flag trigger = raw) ∧
    (∀ (marshal : List (String × JValue) → String) raw requestData trigger,
        triggerFound requestData trigger = false →
        hasFunctionDecls requestData = false →
        ((∃ ts, lookupKV requestData "tools" = some (.arr ts) ∧
            gsPresentInArr ts = true) ∨
         (∃ m, lookupKV requestData "tools" = some (.obj m) ∧
            (lookupKV m "google_search").isSome)) →
        handlePostBodyBytes marshal raw (some requestData) true trigger = raw) := by
  refine ⟨fun _ _ _ _ => rfl, fun _ _ flag _ => ?_, ?_⟩
  · unfold handlePostBodyBytes handlePostBody modifyBodyWithGoogleSearch
    cases flag <;> rfl
  · intro marshal raw requestData trigger htrig hfd hgs
    have hmod : modifyParsedBody requestData trigger = .original := by
      simp only [modifyParsedBody, htrig, hfd, Bool.false_eq_true, if_false]
      rcases hgs with ⟨ts, hts, hpres⟩ | ⟨m, hm, hpres⟩
      · rw [hts]
        simp [hpres]
      · rw [hm]
        simp [hpres]
    show (match modifyParsedBody requestData trigger with
      | RewriteResult.original => raw
      | RewriteResult.rewritten o => marshal o) = raw
    rw [hmod]

/-- Concrete instantiation of C9: flag off, a non-JSON body, and an
already-rewritten body all come back byte-identical. -/
theorem body_rewrite_identity_witness :
    handlePostBodyBytes (fun _ => "") "raw-in" (some [("key", .str "value")])
        false "search" = "raw-in" ∧
    handlePostBodyBytes (fun _ => "") "not json" none true "search" = "not json" ∧
    handlePostBodyBytes (fun _ => "") "done"
        (some [("contents", .arr []), ("tools", .arr [googleSearchTool])])
        true "search" = "done" :=
  ⟨body_rewrite_identity.1 (fun _ => "") "raw-in" (some [("key", .str "value")])
      "search",
   body_rewrite_identity.2.1 (fun _ => "") "not json" true "search",
   body_rewrite_identity.2.2 (fun _ => "") "done"
      [("contents", .arr []), ("tools", .arr [googleSearchTool])] "search"
      (by decide) (by decide)
      (Or.inl ⟨[googleSearchTool], rfl, rfl⟩)⟩

end AiProxy
